import Mathlib

/-!
Verification of the tail_exporter rule-evaluation pipeline and metric store.

The Go sources are shallowly embedded:
* `float64` metric values and deltas are modelled as `ℚ` (the claims under
  study concern control flow — clamping, resetting, dropping — not floating
  point rounding);
* `time.Duration` / timestamps are modelled as `ℚ` (nanosecond counts);
* fallible Go functions returning `(T, error)` are modelled with `Except` or
  a pair carrying an optional error message;
* external stdlib routines (`strconv.ParseFloat`, `strconv.ParseInt`) are
  taken as parameters of the embedded functions so the embedding does not
  invent a float grammar.

Namespaces follow the source files: `Metrictypes` (src/metrictypes.go),
`RegexProcessors` (src/regex_processors.go), `MainGo` (src/main.go),
`ConfigGo` (src/config/config.go), `Cfg2` (src/unnamed/part_002, a second
iteration of the config package), and `Desc` for the canonical-descriptor
string of prometheus `NewDesc`/`Desc.String` which `newMetricValue` hashes.
-/

namespace Metrictypes

/-- The three metric kinds of `config.MetricType` /  `prometheus.ValueType`
(src/config/config.go lines 50-54; only these three values are produced by
`MetricType.UnmarshalYAML`, which maps unknown strings to untyped). -/
inductive MetricType where
  | untyped
  | gauge
  | counter
deriving DecidableEq, Repr

/-- Embedding of `metricValue` (src/metrictypes.go lines 14-27).  The
`desc`/`hash` fields are modelled separately (see `Desc`); here we keep the
fields the value-update claims are about: the kind, the stored `float64`
value, the timeout and the last-update timestamp. -/
structure MetricValue where
  valueType : MetricType
  value : ℚ
  timeout : ℚ
  lastUpdated : ℚ
deriving DecidableEq, Repr

/-- Embeds `metricValue.Set` (src/metrictypes.go lines 78-82): stores `v`
unconditionally (the source carries a `TODO: prevent counter from going < 0?`
— there is no clamp) and stamps `lastUpdated` with the current time. -/
def MetricValue.set (mv : MetricValue) (now v : ℚ) : MetricValue :=
  { mv with value := v, lastUpdated := now }

/-- Embeds `metricValue.Sub` (src/metrictypes.go lines 85-92): a counter is reset to
0, any other kind is decremented by `v`; `lastUpdated` is stamped. -/
def MetricValue.sub (mv : MetricValue) (now v : ℚ) : MetricValue :=
  if mv.valueType = MetricType.counter then
    { mv with value := 0, lastUpdated := now }
  else
    { mv with value := mv.value - v, lastUpdated := now }

/-- Embeds `metricValue.Add` (src/metrictypes.go lines 95-102): adds `v`, then if the
result is negative and the kind is counter, clamps to 0; `lastUpdated` is
stamped. -/
def MetricValue.add (mv : MetricValue) (now v : ℚ) : MetricValue :=
  let newValue := mv.value + v
  if newValue < 0 ∧ mv.valueType = MetricType.counter then
    { mv with value := 0, lastUpdated := now }
  else
    { mv with value := newValue, lastUpdated := now }

/-- Embeds `metricValue.IsStale` (src/metrictypes.go lines 106-111): stale when the
timeout is positive and `time.Since(lastUpdated)` exceeds it; `since` is the
elapsed duration `now - lastUpdated`. -/
def MetricValue.isStale (timeout since : ℚ) : Bool :=
  if timeout > 0 then decide (since > timeout) else false

/-- One update operation applied to a stored series, paired with the wall
clock time of the update (the `time.Now()` the Go methods read). -/
inductive MetricOp where
  | set (v : ℚ)
  | add (v : ℚ)
  | sub (v : ℚ)
deriving DecidableEq, Repr

/-- Dispatch one operation to the corresponding `metricValue` method. -/
def MetricValue.applyOp (mv : MetricValue) (op : MetricOp) (now : ℚ) : MetricValue :=
  match op with
  | MetricOp.set v => mv.set now v
  | MetricOp.add v => mv.add now v
  | MetricOp.sub v => mv.sub now v

/-- Apply a finite sequence of timestamped operations in order. -/
def MetricValue.applyOps (mv : MetricValue) (ops : List (MetricOp × ℚ)) : MetricValue :=
  ops.foldl (fun s p => s.applyOp p.1 p.2) mv

/-- An operation whose `Set` argument (if it is a `Set`) is non-negative. -/
def MetricOp.setNonneg : MetricOp → Prop
  | MetricOp.set v => 0 ≤ v
  | _ => True

end Metrictypes

namespace ConfigGo

/-- Embeds `config.LabelValueType` (src/config/config.go lines 155-159). -/
inductive LabelValueType where
  | literal
  | captureGroup
  | captureGroupNamed
deriving DecidableEq, Repr

/-- Embeds `config.LabelValueDef` (src/config/config.go lines 162-167). -/
structure LabelValueDef where
  FieldType : LabelValueType
  Literal : String := ""
  CaptureGroup : Nat := 0
  CaptureGroupName : String := ""
deriving DecidableEq, Repr

/-- Embeds `config.LabelDef` (src/config/config.go lines 119-129): a name spec, a
value spec, and the optional default (`HasDefault` records whether a
`default:` key was present, per `LabelDef.UnmarshalYAML` line 139). -/
structure LabelDef where
  Name : LabelValueDef
  Value : LabelValueDef
  Default : String := ""
  HasDefault : Bool := false
deriving DecidableEq, Repr

/-- Embeds `config.ValueType` (src/config/config.go lines 210-227). -/
inductive ValueType where
  | literal
  | captureGroup
  | captureGroupNamed
  | inc
  | dec
  | add
  | sub
deriving DecidableEq, Repr

/-- Embeds `config.ValueOpType` (src/unnamed/part_002 lines 208-214): the operation
selector `Add | Subtract | Equals`. -/
inductive ValueOpType where
  | add
  | subtract
  | equals
deriving DecidableEq, Repr

/-- Embeds `config.ValueDef` (src/config/config.go lines 230-235).  The `ValueOp`
field is the operation selector that src/main.go line 171 reads
(`cfg.Value.ValueOp`); it exists only on the config iteration in
src/unnamed/part_002 (the tree is mid-refactor and does not compile as one
Go package), so it is carried here alongside the fields of the
src/config/config.go struct. -/
structure ValueDef where
  FieldType : ValueType
  Literal : ℚ := 0
  CaptureGroup : Nat := 0
  CaptureGroupName : String := ""
  ValueOp : ValueOpType := ValueOpType.add
deriving DecidableEq, Repr

end ConfigGo

namespace Regex

/-- The capture data of one successful PCRE match: positional groups indexed
from 0 (group 0 is the whole match; a group that did not participate is
`none`), and the named groups.  `pcre.Matcher` is the opaque matching
capability; only `GroupString`, `NamedPresent` and `NamedString` are used by
the extraction code. -/
structure MatchData where
  groups : List (Option String)
  named : List (String × Option String)
deriving DecidableEq, Repr

/-- Embeds `m.GroupString(i)`: the matched text of positional group `i`, or the
empty string when the group did not participate in the match (the pcre
binding returns the empty slice for a non-participating group). -/
def MatchData.groupString (m : MatchData) (i : Nat) : String :=
  (m.groups.getD i none).getD ""

/-- Embeds `m.NamedPresent(n)`: whether named group `n` exists and participated. -/
def MatchData.namedPresent (m : MatchData) (n : String) : Bool :=
  match m.named.lookup n with
  | some (some _) => true
  | _ => false

/-- Embeds `m.NamedString(n)`: the matched text of named group `n` (empty when
absent; the extraction code only reads it after `NamedPresent`). -/
def MatchData.namedString (m : MatchData) (n : String) : String :=
  match m.named.lookup n with
  | some (some s) => s
  | _ => ""

end Regex

namespace RegexProcessors

open ConfigGo Regex

/-- Embeds `ParseLabelKey` (src/regex_processors.go lines 13-27): a literal spec
yields the literal; a named-capture spec fails with "unconvertible capture
value" unless the group participated; a positional-capture spec yields
`GroupString` unconditionally.  No branch consults `LabelDef.Default`. -/
def ParseLabelKey (d : LabelValueDef) (m : MatchData) : Except String String :=
  match d.FieldType with
  | LabelValueType.literal => Except.ok d.Literal
  | LabelValueType.captureGroupNamed =>
      if m.namedPresent d.CaptureGroupName then
        Except.ok (m.namedString d.CaptureGroupName)
      else
        Except.error "unconvertible capture value"
  | LabelValueType.captureGroup => Except.ok (m.groupString d.CaptureGroup)

/-- Embeds `ParseLabelPairsFromMatch` (src/regex_processors.go lines 32-56):
resolves each `LabelDef`'s name spec then value spec in order; the first
failure aborts with the corresponding message. -/
def ParseLabelPairsFromMatch (defs : List LabelDef) (m : MatchData) :
    Except String (List (String × String)) :=
  match defs with
  | [] => Except.ok []
  | d :: rest =>
      match ParseLabelKey d.Name m with
      | Except.error _ => Except.error "error parsing LabelDef for name"
      | Except.ok name =>
          match ParseLabelKey d.Value m with
          | Except.error _ => Except.error "error parsing LabelDef for value"
          | Except.ok value =>
              match ParseLabelPairsFromMatch rest m with
              | Except.error e => Except.error e
              | Except.ok ps => Except.ok ((name, value) :: ps)

/-- The `float64` result slot of `ParseValueFromMatch`.  The named-capture
branch of the Go source (src/regex_processors.go line 69) returns the raw
capture string where a `float64` is declared — a Go type error — so the
result is modelled as a sum; `nan` models `math.NaN()` on the error paths. -/
inductive GoFloat where
  | num (q : ℚ)
  | str (s : String)
  | nan
deriving DecidableEq, Repr

/-- The value `lineProcessor` goes on to use (src/main.go continues with the
returned value even after an error, see C1).  The `str` and `nan` cases are
unreachable in a well-typed execution: `str` does not type-check in Go and
`nan` only flows on error paths. -/
def GoFloat.toRat : GoFloat → ℚ
  | GoFloat.num q => q
  | GoFloat.str _ => 0
  | GoFloat.nan => 0

/-- Model of `strconv.ParseFloat(s, 64)`: the parsed value (0 on a syntax
error, as the Go function returns) and whether parsing succeeded.  Kept
abstract: the stdlib float grammar is an external collaborator. -/
def GoParseFloat : Type := String → ℚ × Bool

/-- Embeds `ParseValueFromMatch` (src/regex_processors.go lines 61-81), parameterised
by the `strconv.ParseFloat` model `pf`.  Branches, by `def.FieldType`:
literal → the configured constant; named capture → fail if the group is
absent, otherwise return the raw capture text **unparsed** (the source's
`return m.NamedString(...), nil`); positional capture → `ParseFloat` of the
group text, propagating its error; `VALUE_INC` → 1; `VALUE_SUB` → -1;
anything else (`VALUE_DEC`, `VALUE_ADD`) → "unknown conversion type". -/
def ParseValueFromMatch (pf : GoParseFloat) (d : ValueDef) (m : MatchData) :
    GoFloat × Option String :=
  match d.FieldType with
  | ValueType.literal => (GoFloat.num d.Literal, none)
  | ValueType.captureGroupNamed =>
      if m.namedPresent d.CaptureGroupName then
        (GoFloat.str (m.namedString d.CaptureGroupName), none)
      else
        (GoFloat.nan, some "unconvertible capture value")
  | ValueType.captureGroup =>
      let r := pf (m.groupString d.CaptureGroup)
      (GoFloat.num r.1, if r.2 then none else some "strconv.ParseFloat: invalid syntax")
  | ValueType.inc => (GoFloat.num 1, none)
  | ValueType.sub => (GoFloat.num (-1), none)
  | _ => (GoFloat.nan, some "unknown conversion type")

/-- Whether a label spec can be resolved at all: only a named-capture spec
whose group is absent fails (`ParseLabelKey`'s sole error branch). -/
def specOk (d : LabelValueDef) (m : MatchData) : Bool :=
  match d.FieldType with
  | LabelValueType.captureGroupNamed => m.namedPresent d.CaptureGroupName
  | _ => true

/-- The string a resolvable label spec resolves to. -/
def resolveLabelKey (d : LabelValueDef) (m : MatchData) : String :=
  match d.FieldType with
  | LabelValueType.literal => d.Literal
  | LabelValueType.captureGroupNamed => m.namedString d.CaptureGroupName
  | LabelValueType.captureGroup => m.groupString d.CaptureGroup

/-- All name and value specs of a rule's label definitions resolvable. -/
def allLabelsOk (defs : List LabelDef) (m : MatchData) : Bool :=
  defs.all fun ld => specOk ld.Name m && specOk ld.Value m

end RegexProcessors

namespace Cfg2

/-- Embeds `config.ValueSourceType` (src/unnamed/part_002 lines 216-225). -/
inductive ValueSourceType where
  | literal
  | captureGroup
  | namedCaptureGroup
deriving DecidableEq, Repr

/-- Embeds `config.ValueDef` of the src/unnamed/part_002 config iteration
(lines 228-234): operation selector plus value source. -/
structure ValueDef where
  ValueOp : ConfigGo.ValueOpType
  ValueSource : ValueSourceType
  Literal : ℚ := 0
  CaptureGroup : Int := 0
  CaptureGroupName : String := ""
deriving DecidableEq, Repr

/-- Model of `strconv.ParseInt(s, 10, 64)`: `some n` on success. -/
def GoParseInt : Type := String → Option Int

/-- Outcome of `ValueDef.UnmarshalYAML`: a parsed definition, a returned
error, or a runtime panic (`s[0]`/`s[1]` index out of range on strings
shorter than 2; an index panic is not recovered by the YAML loader, so the
process crashes before serving — like a returned error, a load-time
failure). -/
inductive UnmarshalResult where
  | ok (v : ValueDef)
  | err (msg : String)
  | panicked
deriving DecidableEq, Repr

/-- Whether unmarshalling succeeded. -/
def UnmarshalResult.isOk : UnmarshalResult → Bool
  | UnmarshalResult.ok _ => true
  | _ => false

/-- Embeds `ValueDef.UnmarshalYAML` (src/unnamed/part_002 lines 237-278),
parameterised by the stdlib parsers: switch on `s[0]` for the operation
prefix (`+`/`-`/`=`; anything else is an error, an empty string panics);
if `s[1]` is `$`, `ParseInt(s[2:])` decides positional vs named capture
(both load successfully); otherwise `ParseFloat(s[1:])` must yield the
literal or the error "Could not parse literal float" is returned. -/
def UnmarshalYAML (pf : RegexProcessors.GoParseFloat) (pint : GoParseInt)
    (s : String) : UnmarshalResult :=
  match s.data with
  | [] => UnmarshalResult.panicked
  | c :: rest =>
      let op? : Option ConfigGo.ValueOpType :=
        if c = '+' then some ConfigGo.ValueOpType.add
        else if c = '-' then some ConfigGo.ValueOpType.subtract
        else if c = '=' then some ConfigGo.ValueOpType.equals
        else none
      match op? with
      | none => UnmarshalResult.err "Value specification must start with one of +,-,="
      | some op =>
          match rest with
          | [] => UnmarshalResult.panicked
          | d :: rest2 =>
              if d = '$' then
                match pint (String.mk rest2) with
                | some n => UnmarshalResult.ok
                    { ValueOp := op, ValueSource := ValueSourceType.captureGroup,
                      CaptureGroup := n }
                | none => UnmarshalResult.ok
                    { ValueOp := op, ValueSource := ValueSourceType.namedCaptureGroup,
                      CaptureGroupName := String.mk rest2 }
              else
                let r := pf (String.mk (d :: rest2))
                if r.2 then
                  UnmarshalResult.ok
                    { ValueOp := op, ValueSource := ValueSourceType.literal,
                      Literal := r.1 }
                else UnmarshalResult.err "Could not parse literal float"

/-- The specification begins with one of the operation prefixes. -/
def startsWithOp (s : String) : Bool :=
  match s.data with
  | [] => false
  | c :: _ => c = '+' || c = '-' || c = '='

/-- After the operation prefix, the remainder is a `$`-capture reference. -/
def isCaptureRef (s : String) : Bool :=
  match s.data with
  | _ :: '$' :: _ => true
  | _ => false

end Cfg2

namespace Desc

/-- First character of a valid Prometheus metric name: `[a-zA-Z_:]`
(`model.IsValidMetricName`, used by `prometheus.NewDesc`). -/
def isMetricNameStart (c : Char) : Bool := c.isAlpha || c = '_' || c = ':'

/-- Subsequent characters of a valid metric name: `[a-zA-Z0-9_:]`. -/
def isMetricNameChar (c : Char) : Bool := c.isAlpha || c.isDigit || c = '_' || c = ':'

/-- Embeds `model.IsValidMetricName`: nonempty, `[a-zA-Z_:][a-zA-Z0-9_:]*`. -/
def IsValidMetricName (s : String) : Bool :=
  match s.data with
  | [] => false
  | c :: cs => isMetricNameStart c && cs.all isMetricNameChar

/-- First character of a valid label name: `[a-zA-Z_]`. -/
def isLabelNameStart (c : Char) : Bool := c.isAlpha || c = '_'

/-- Subsequent characters of a valid label name: `[a-zA-Z0-9_]`. -/
def isLabelNameChar (c : Char) : Bool := c.isAlpha || c.isDigit || c = '_'

/-- Whether a label name lies in the reserved `__` label namespace
(`strings.HasPrefix(l, "__")` in `checkLabelName`). -/
def hasReservedStart : List Char → Bool
  | '_' :: '_' :: _ => true
  | _ => false

/-- Embeds `checkLabelName` of client_golang: a valid `model.LabelName`
(nonempty, `[a-zA-Z_][a-zA-Z0-9_]*`) outside the reserved `__`
label namespace. -/
def checkLabelName (s : String) : Bool :=
  (match s.data with
   | [] => false
   | c :: cs => isLabelNameStart c && cs.all isLabelNameChar)
  && !(hasReservedStart s.data)

/-- One character of Go's `%q` escaping, restricted to the two characters
whose escaping the injectivity argument rests on: `"` and `\` are
backslash-escaped, everything else passes through.  (The real `strconv.Quote`
additionally escapes control and non-printable characters — also injectively
and also never emitting a bare `"` — so the model's collision-freedom carries
over.) -/
def escChar (c : Char) : List Char :=
  if c = '"' then ['\\', '"'] else if c = '\\' then ['\\', '\\'] else [c]

/-- Applies `%q` escaping to a character list. -/
def escChars : List Char → List Char
  | [] => []
  | c :: cs => escChar c ++ escChars cs

/-- Go `%q` of a string: opening quote, escaped body, closing quote. -/
def goQuote (s : String) : List Char := '"' :: (escChars s.data ++ ['"'])

/-- Embeds `fmt.Sprintf("%s=%q", name, value)` for one label pair of
`Desc.String()`: the name is printed raw, the value quoted. -/
def encPair (p : String × String) : List Char := p.1.data ++ '=' :: goQuote p.2

/-- Embeds `strings.Join(lpStrings, ",")` of the encoded pairs. -/
def encPairs : List (String × String) → List Char
  | [] => []
  | [p] => encPair p
  | p :: q :: ps => encPair p ++ ',' :: encPairs (q :: ps)

/-- Sorting order of `prometheus.LabelPairSorter`: by label name. -/
def pairLe (p q : String × String) : Prop := p.1 ≤ q.1

instance : DecidableRel pairLe := fun p q => inferInstanceAs (Decidable (p.1 ≤ q.1))

instance : IsTotal (String × String) pairLe := ⟨fun p q => le_total p.1 q.1⟩

instance : IsTrans (String × String) pairLe := ⟨fun _ _ _ => le_trans⟩

/-- The name-sorted label pairs `NewDesc` stores in `constLabelPairs`
(`sort.Sort(labelPairSorter(...))`; the label names come from a Go map and
are therefore distinct, making the by-name order unambiguous). -/
def sortPairs (l : List (String × String)) : List (String × String) :=
  List.insertionSort pairLe l

/-- The fields of `prometheus.Desc` that `Desc.String()` prints: the metric
name, the help text, the sorted constant label pairs, and whether
construction failed validation (`d.err`). -/
structure GoDesc where
  fqName : String
  help : String
  constLabelPairs : List (String × String)
  err : Bool
deriving DecidableEq, Repr

/-- Embeds `prometheus.NewDesc` as called by
`newMetricValue` (src/metrictypes.go line 43; variable labels empty): an
invalid metric name or any invalid label name makes it return early with
`d.err` set and `constLabelPairs` still empty; otherwise the pairs are
sorted by name. -/
def NewDesc (fqName help : String) (constLabels : List (String × String)) : GoDesc :=
  if IsValidMetricName fqName = false then ⟨fqName, help, [], true⟩
  else if constLabels.all (fun p => checkLabelName p.1) = false then
    ⟨fqName, help, [], true⟩
  else ⟨fqName, help, sortPairs constLabels, false⟩

/-- Embeds `Desc.String()`:
`Desc{fqName: %q, help: %q, constLabels: {%s}, variableLabels: %v}` with the
pairs joined by `,` and `variableLabels` printing as `[]`. -/
def descChars (d : GoDesc) : List Char :=
  "Desc\x7bfqName: ".data ++ goQuote d.fqName
    ++ ", help: ".data ++ goQuote d.help
    ++ ", constLabels: \x7b".data ++ encPairs d.constLabelPairs
    ++ "\x7d, variableLabels: []\x7d".data

/-- The identity of a series: `newMetricValue` (src/metrictypes.go lines
43-48) hashes `desc.String()` with SHA-256.  The digest is a parameter
`dig`; collision resistance enters the theorems as an injectivity
hypothesis. -/
def metricHash (dig : String → String) (fqName help : String)
    (labels : List (String × String)) : String :=
  dig (String.mk (descChars (NewDesc fqName help labels)))

/-- Parser component: consume an expected literal prefix. -/
def expectLit : List Char → List Char → Option (List Char)
  | [], r => some r
  | _ :: _, [] => none
  | c :: cs, d :: ds => if c = d then expectLit cs ds else none

/-- Parser component: consume an escaped string body up to its closing
unescaped quote, undoing `escChars`. -/
def unq : List Char → Option (List Char × List Char)
  | [] => none
  | '"' :: t => some ([], t)
  | ['\\'] => none
  | '\\' :: d :: t2 =>
      match unq t2 with
      | none => none
      | some (s, r) => some (d :: s, r)
  | c :: t =>
      match unq t with
      | none => none
      | some (s, r) => some (c :: s, r)

/-- Parser component: a full `%q`-quoted string. -/
def parseQuoted (s : List Char) : Option (String × List Char) :=
  match s with
  | '"' :: t =>
      match unq t with
      | none => none
      | some (v, r) => some (String.mk v, r)
  | _ => none

/-- Parser component: the `name=%q` pairs joined by `,`, stopping in front
of the closing brace.  Fuel bounds the number of pairs. -/
def parsePairs : Nat → List Char → Option (List (String × String) × List Char)
  | _, [] => none
  | 0, _ :: _ => none
  | Nat.succ fuel, c :: cs =>
      if c = '\x7d' then some ([], c :: cs)
      else
        let name := (c :: cs).takeWhile (fun ch => ch != '=')
        match (c :: cs).dropWhile (fun ch => ch != '=') with
        | '=' :: rest =>
            match parseQuoted rest with
            | none => none
            | some (v, rest2) =>
                match rest2 with
                | ',' :: rest3 =>
                    match parsePairs fuel rest3 with
                    | none => none
                    | some (ps, r) => some ((String.mk name, v) :: ps, r)
                | _ => some ([(String.mk name, v)], rest2)
        | _ => none

/-- Left inverse of `descChars` on validated descriptors: recover the metric
name, help text and label pairs. -/
def parseDesc (fuel : Nat) (s : List Char) :
    Option (String × String × List (String × String)) :=
  match expectLit "Desc\x7bfqName: ".data s with
  | none => none
  | some r1 =>
      match parseQuoted r1 with
      | none => none
      | some (n, r2) =>
          match expectLit ", help: ".data r2 with
          | none => none
          | some r3 =>
              match parseQuoted r3 with
              | none => none
              | some (h, r4) =>
                  match expectLit ", constLabels: \x7b".data r4 with
                  | none => none
                  | some r5 =>
                      match parsePairs fuel r5 with
                      | none => none
                      | some (ps, r6) =>
                          match expectLit "\x7d, variableLabels: []\x7d".data r6 with
                          | none => none
                          | some _ => some (n, h, ps)

end Desc

namespace MainGo

open Metrictypes ConfigGo Regex RegexProcessors

/-- Embeds `config.MetricParser` (src/config/config.go lines 90-98): the fields
`lineProcessor` reads. -/
structure MetricParser where
  Name : String
  Typ : MetricType
  Help : String
  Labels : List LabelDef
  Value : ValueDef
  Timeout : ℚ := 0

/-- Embeds `newMetricValue` (src/metrictypes.go lines 29-53): builds the metric with
value 0 and the SHA-256 identity of the prometheus descriptor.  For the three
`MetricType` values produced by config loading the error branch is
unreachable, so the result is the pair (metric, hash).  The call site
src/main.go line 148 omits the `timeout` argument of the current signature
(the tree is mid-refactor); the timeout field stays 0. -/
def newMetricValue (dig : String → String) (fqName help : String)
    (valueType : MetricType) (labelPairs : List (String × String)) :
    MetricValue × String :=
  (⟨valueType, 0, 0, 0⟩, Desc.metricHash dig fqName help labelPairs)

/-- Embeds `c.metrics.GetStringKey` on the store modelled as an association list. -/
def storeGet (store : List (String × MetricValue)) (k : String) :
    Option MetricValue :=
  store.lookup k

/-- Embeds `c.metrics.Set`: insert or overwrite the entry for key `k`. -/
def storeSet (store : List (String × MetricValue)) (k : String)
    (mv : MetricValue) : List (String × MetricValue) :=
  match store with
  | [] => [(k, mv)]
  | (k2, v2) :: rest =>
      if k2 = k then (k, mv) :: rest else (k2, v2) :: storeSet rest k mv

/-- Result of processing one line for one rule: the store afterwards and the
labels of the `rejected_lines_total` increments performed. -/
structure LineOutcome where
  store : List (String × MetricValue)
  rejects : List String
deriving DecidableEq, Repr

/-- The operation switch of src/main.go lines 171-182 on a stored metric. -/
def applyValueOp (op : ValueOpType) (mv : MetricValue) (now v : ℚ) :
    MetricValue :=
  match op with
  | ValueOpType.add => mv.add now v
  | ValueOpType.subtract => mv.sub now v
  | ValueOpType.equals => mv.set now v

/-- One iteration of the `lineProcessor` loop (src/main.go lines 132-185) on
one dequeued line.  `m` is `none` when the pattern did not match (silent
skip).  On a label-resolution error the code logs, increments the rejection
counter and `continue`s — the store is untouched.  On a value-resolution
error (lines 156-159) the code logs "Dropping line due value parsing error"
and increments the rejection counter but has **no `continue`**: it proceeds
to look up and mutate the store with whatever value `ParseValueFromMatch`
returned.  (The metric-construction error branch, lines 149-152, also lacks
a `continue`; it is unreachable for the modelled `MetricType` values, and in
Go it would proceed into a nil-pointer dereference at `metric.GetHash()`.) -/
def processLine (dig : String → String) (pf : GoParseFloat)
    (cfg : MetricParser) (m : Option MatchData)
    (store : List (String × MetricValue)) (now : ℚ) : LineOutcome :=
  match m with
  | none => ⟨store, []⟩
  | some md =>
      match ParseLabelPairsFromMatch cfg.Labels md with
      | Except.error e => ⟨store, [e]⟩
      | Except.ok labelPairs =>
          let mh := newMetricValue dig cfg.Name cfg.Help cfg.Typ labelPairs
          let pv := ParseValueFromMatch pf cfg.Value md
          let rejects := match pv.2 with | some e => [e] | none => []
          match storeGet store mh.2 with
          | none =>
              ⟨storeSet store mh.2 (mh.1.set now pv.1.toRat), rejects⟩
          | some stored =>
              ⟨storeSet store mh.2
                (applyValueOp cfg.Value.ValueOp stored now pv.1.toRat), rejects⟩

/-- Parameters of one rule-worker update racing on a fresh identity: the
configured operation, the resolved value, the rule's metric kind, and the
wall-clock time of its store access. -/
structure RaceWorker where
  op : ValueOpType
  value : ℚ
  valueType : MetricType
  now : ℚ
deriving DecidableEq, Repr

/-- Control state of one racing worker: `pc = 0` before its
`GetStringKey` lookup, `pc = 1` between lookup and store write, `pc = 2`
done; `found` caches the lookup result. -/
structure WorkerState where
  pc : Nat
  found : Bool
deriving DecidableEq, Repr

/-- Shared state of the two-worker race on one fresh identity: the map slot
for that identity, a ghost count of executions of the creation branch
(src/main.go lines 163-166), and the workers. -/
structure RaceState where
  slot : Option MetricValue
  created : Nat
  w1 : WorkerState
  w2 : WorkerState
deriving DecidableEq, Repr

/-- One atomic action of a worker, following src/main.go lines 161-183:
first the `GetStringKey` lookup, then either the creation branch
(`metric.Set(value)` on a fresh metric, then `c.metrics.Set` — an insert
that overwrites any entry racing in between) or the update branch (the
operation switch applied to the stored entry).  No lock is taken between
the two actions: `c.mmtx`, declared at src/main.go line 41 as the
"Metric initialization lock for map writes", is never locked in
`lineProcessor`, so any interleaving of the actions is possible. -/
def raceStep (w : RaceWorker) (ws : WorkerState) (slot : Option MetricValue)
    (created : Nat) : WorkerState × Option MetricValue × Nat :=
  match ws.pc with
  | 0 => (⟨1, slot.isSome⟩, slot, created)
  | 1 =>
      if ws.found then
        match slot with
        | some stored =>
            (⟨2, ws.found⟩, some (applyValueOp w.op stored w.now w.value), created)
        | none => (⟨2, ws.found⟩, slot, created)
      else
        (⟨2, ws.found⟩,
          some ((⟨w.valueType, 0, 0, 0⟩ : MetricValue).set w.now w.value),
          created + 1)
  | _ => (ws, slot, created)

/-- Run the two racing workers under an explicit schedule: `true` steps
worker 1, `false` steps worker 2. -/
def raceExec (w1 w2 : RaceWorker) : List Bool → RaceState → RaceState
  | [], st => st
  | b :: sched, st =>
      if b then
        let r := raceStep w1 st.w1 st.slot st.created
        raceExec w1 w2 sched ⟨r.2.1, r.2.2, r.1, st.w2⟩
      else
        let r := raceStep w2 st.w2 st.slot st.created
        raceExec w1 w2 sched ⟨r.2.1, r.2.2, st.w1, r.1⟩

/-- The initial race state: the identity absent, no creations, both workers
before their lookup. -/
def raceInit : RaceState := ⟨none, 0, ⟨0, false⟩, ⟨0, false⟩⟩

end MainGo

/-! ## Theorems -/

namespace Metrictypes

theorem MetricValue.applyOp_valueType (mv : MetricValue) (op : MetricOp) (now : ℚ) :
    (mv.applyOp op now).valueType = mv.valueType := by
  cases op <;> simp [MetricValue.applyOp, MetricValue.set, MetricValue.add, MetricValue.sub]
  · split <;> rfl
  · split <;> rfl

theorem MetricValue.applyOp_counter_nonneg (mv : MetricValue) (op : MetricOp) (now : ℚ)
    (hc : mv.valueType = MetricType.counter) (h0 : 0 ≤ mv.value)
    (hs : op.setNonneg) : 0 ≤ (mv.applyOp op now).value := by
  cases op with
  | set v => simpa [MetricValue.applyOp, MetricValue.set] using hs
  | add v =>
      simp only [MetricValue.applyOp, MetricValue.add]
      split
      · simp
      · rename_i hneg
        rw [not_and_or] at hneg
        rcases hneg with hneg | hneg
        · simpa using le_of_not_lt hneg
        · exact absurd hc hneg
  | sub v =>
      simp [MetricValue.applyOp, MetricValue.sub, hc]

theorem MetricValue.applyOps_counter_nonneg (ops : List (MetricOp × ℚ)) :
    ∀ mv : MetricValue, mv.valueType = MetricType.counter → 0 ≤ mv.value →
    (∀ p ∈ ops, MetricOp.setNonneg p.1) → 0 ≤ (mv.applyOps ops).value := by
  induction ops with
  | nil => intro mv _ h0 _; simpa [MetricValue.applyOps] using h0
  | cons p ps ih =>
      intro mv hc h0 hall
      have hstep := MetricValue.applyOp_counter_nonneg mv p.1 p.2 hc h0
        (hall p (List.mem_cons_self p ps))
      have hty := MetricValue.applyOp_valueType mv p.1 p.2
      have : MetricValue.applyOps mv (p :: ps)
          = MetricValue.applyOps (mv.applyOp p.1 p.2) ps := by
        simp [MetricValue.applyOps]
      rw [this]
      exact ih (mv.applyOp p.1 p.2) (hty.trans hc) hstep
        (fun q hq => hall q (List.mem_cons_of_mem p hq))

/-- C2 counterexample: the claim "for every series of kind Counter and every
finite sequence of Add, Set, and Subtract operations the stored value after
each operation is never negative" is false: `metricValue.Set` stores its
argument unconditionally (src/metrictypes.go lines 78-82, with the source's
own `TODO: prevent counter from going < 0?`), so a single `Set(-1)` on a
counter at 0 leaves the stored value at -1. -/
theorem C2_counter_set_negative_counterexample :
    (MetricValue.applyOps ⟨MetricType.counter, 0, 0, 0⟩
      [(MetricOp.set (-1), 1)]).value < 0 := by
  decide

/-- C2 amended: for every Counter series starting at a non-negative value and
every finite sequence of Add, Set, Subtract operations in which every `Set`
argument is non-negative, the stored value is non-negative after each
operation (i.e. after every prefix of the sequence).  `Set` with a negative
argument is the sole way a counter goes negative. -/
theorem C2_counter_nonneg_amended (mv : MetricValue) (ops : List (MetricOp × ℚ))
    (hc : mv.valueType = MetricType.counter) (h0 : 0 ≤ mv.value)
    (hset : ∀ p ∈ ops, MetricOp.setNonneg p.1) :
    ∀ n, 0 ≤ (mv.applyOps (ops.take n)).value := by
  intro n
  exact MetricValue.applyOps_counter_nonneg (ops.take n) mv hc h0
    (fun p hp => hset p (List.mem_of_mem_take hp))

/-- Witness for C2 amended at a concrete input: counter at 0, operations
`Add 5, Sub 3, Set 2, Add (-7)`; every prefix stays non-negative. -/
theorem C2_counter_nonneg_amended_witness :
    (⟨MetricType.counter, 0, 0, 0⟩ : MetricValue).valueType = MetricType.counter
    ∧ (0:ℚ) ≤ (⟨MetricType.counter, 0, 0, 0⟩ : MetricValue).value
    ∧ 0 ≤ (MetricValue.applyOps ⟨MetricType.counter, 0, 0, 0⟩
        ([(MetricOp.add 5, 1), (MetricOp.sub 3, 2), (MetricOp.set 2, 3),
          (MetricOp.add (-7), 4)].take 4)).value :=
  ⟨rfl, by decide,
    C2_counter_nonneg_amended ⟨MetricType.counter, 0, 0, 0⟩
      [(MetricOp.add 5, 1), (MetricOp.sub 3, 2), (MetricOp.set 2, 3),
        (MetricOp.add (-7), 4)] rfl (by decide)
      (by intro p hp; fin_cases hp <;> simp [MetricOp.setNonneg] <;> norm_num) 4⟩

/-- C5: `metricValue.Sub` sets the value to 0 when the kind is Counter,
regardless of the prior value and of `v`, and to the prior value minus `v`
for the Gauge and Untyped kinds (src/metrictypes.go lines 85-92). -/
theorem C5_sub_semantics (mv : MetricValue) (now v : ℚ) :
    (mv.sub now v).value =
      match mv.valueType with
      | MetricType.counter => 0
      | MetricType.gauge => mv.value - v
      | MetricType.untyped => mv.value - v := by
  cases h : mv.valueType <;> simp [MetricValue.sub, h]

/-- C6: `metricValue.Add` sets the value to the prior value plus `v`, except
that when the kind is Counter and the sum is negative the value is clamped to
0; for Gauge and Untyped a negative sum is kept as-is
(src/metrictypes.go lines 95-102). -/
theorem C6_add_semantics (mv : MetricValue) (now v : ℚ) :
    (mv.add now v).value =
      if mv.value + v < 0 ∧ mv.valueType = MetricType.counter then 0
      else mv.value + v := by
  simp only [MetricValue.add]
  split <;> rfl

/-- C9: `metricValue.IsStale` holds iff the timeout is strictly positive and
the elapsed time since the last update exceeds the timeout; in particular a
series with timeout 0 is never stale (src/metrictypes.go lines 106-111). -/
theorem C9_isStale_iff (timeout since : ℚ) :
    (MetricValue.isStale timeout since = true ↔ 0 < timeout ∧ timeout < since)
    ∧ MetricValue.isStale 0 since = false := by
  refine ⟨?_, rfl⟩
  unfold MetricValue.isStale
  by_cases h : timeout > 0
  · simp [h]
  · simp only [if_neg h, Bool.false_eq_true, false_iff, not_and]
    intro h2
    exact absurd h2 h

end Metrictypes

namespace RegexProcessors

open ConfigGo Regex

theorem ParseLabelKey_eq (d : LabelValueDef) (m : MatchData) :
    ParseLabelKey d m =
      if specOk d m then Except.ok (resolveLabelKey d m)
      else Except.error "unconvertible capture value" := by
  cases h : d.FieldType <;> simp [ParseLabelKey, specOk, resolveLabelKey, h]

/-- C3 counterexample: the claim "if the group did not participate and the
label declares a Default, resolution yields the default string instead of
failing" is false on src/regex_processors.go: `ParseLabelKey` never consults
`LabelDef.Default`/`HasDefault`.  For the label `code = $g` with declared
default "d" and a match in which named group `g` did not participate, the
claim requires the mapping `[("code", "d")]`; the code fails the line. -/
theorem C3_default_ignored_counterexample :
    ParseLabelPairsFromMatch
        [{ Name := { FieldType := LabelValueType.literal, Literal := "code" },
           Value := { FieldType := LabelValueType.captureGroupNamed,
                      CaptureGroupName := "g" },
           Default := "d", HasDefault := true }]
        ⟨[some "whole"], [("g", none)]⟩
      = Except.error "error parsing LabelDef for value"
    ∧ ParseLabelPairsFromMatch
        [{ Name := { FieldType := LabelValueType.literal, Literal := "code" },
           Value := { FieldType := LabelValueType.captureGroupNamed,
                      CaptureGroupName := "g" },
           Default := "d", HasDefault := true }]
        ⟨[some "whole"], [("g", none)]⟩
      ≠ Except.ok [("code", "d")] :=
  ⟨rfl, fun h => Except.noConfusion h⟩

/-- C3 amended: label resolution as src/regex_processors.go implements it —
a literal spec yields the literal; a named-capture spec yields the group's
text when the group participated and otherwise fails the line for this rule
with no Default fallback (the declared `Default` is ignored); a
positional-capture spec always yields `GroupString`, which is the empty
string when the group did not participate (it never fails and never consults
the Default).  `ParseLabelPairsFromMatch` returns the pointwise resolution
when every spec is resolvable and an error otherwise. -/
theorem C3_label_resolution_amended (defs : List LabelDef) (m : MatchData) :
    (allLabelsOk defs m = true →
      ParseLabelPairsFromMatch defs m =
        Except.ok (defs.map fun ld =>
          (resolveLabelKey ld.Name m, resolveLabelKey ld.Value m)))
    ∧ (allLabelsOk defs m = false →
      ∃ e, ParseLabelPairsFromMatch defs m = Except.error e) := by
  induction defs with
  | nil =>
      refine ⟨fun _ => rfl, fun h => ?_⟩
      simp [allLabelsOk] at h
  | cons d rest ih =>
      constructor
      · intro hall
        simp only [allLabelsOk, List.all_cons, Bool.and_eq_true] at hall
        obtain ⟨⟨hn, hv⟩, hrest⟩ := hall
        have hr := ih.1 hrest
        simp [ParseLabelPairsFromMatch, ParseLabelKey_eq, hn, hv, hr]
      · intro hbad
        simp only [allLabelsOk, List.all_cons, Bool.and_eq_true,
          Bool.and_eq_false_iff] at hbad
        by_cases hn : specOk d.Name m = true
        · by_cases hv : specOk d.Value m = true
          · have hrest : allLabelsOk rest m = false := by
              rcases hbad with h | h
              · rcases h with h | h
                · simp [hn] at h
                · simp [hv] at h
              · exact h
            obtain ⟨e, he⟩ := ih.2 hrest
            refine ⟨e, ?_⟩
            simp [ParseLabelPairsFromMatch, ParseLabelKey_eq, hn, hv, he]
          · refine ⟨"error parsing LabelDef for value", ?_⟩
            simp [ParseLabelPairsFromMatch, ParseLabelKey_eq, hn,
              Bool.eq_false_iff.mpr hv]
        · refine ⟨"error parsing LabelDef for name", ?_⟩
          simp [ParseLabelPairsFromMatch, ParseLabelKey_eq,
            Bool.eq_false_iff.mpr hn]

/-- Witness for C3 amended at a concrete input: labels
`uuid = $1, result = $g` against a match where group 1 matched "abc" and
named group `g` matched "ok". -/
theorem C3_label_resolution_amended_witness :
    allLabelsOk
        [{ Name := { FieldType := LabelValueType.literal, Literal := "uuid" },
           Value := { FieldType := LabelValueType.captureGroup, CaptureGroup := 1 } },
         { Name := { FieldType := LabelValueType.literal, Literal := "result" },
           Value := { FieldType := LabelValueType.captureGroupNamed,
                      CaptureGroupName := "g" } }]
        ⟨[some "whole", some "abc"], [("g", some "ok")]⟩ = true
    ∧ ParseLabelPairsFromMatch
        [{ Name := { FieldType := LabelValueType.literal, Literal := "uuid" },
           Value := { FieldType := LabelValueType.captureGroup, CaptureGroup := 1 } },
         { Name := { FieldType := LabelValueType.literal, Literal := "result" },
           Value := { FieldType := LabelValueType.captureGroupNamed,
                      CaptureGroupName := "g" } }]
        ⟨[some "whole", some "abc"], [("g", some "ok")]⟩
      = Except.ok [("uuid", "abc"), ("result", "ok")] := by
  refine ⟨by decide, ?_⟩
  exact (C3_label_resolution_amended _ _).1 (by decide)

/-- C4 (code bug): the claim requires a named-capture value spec to parse the
capture text as a base-10 float and to fail when the text does not parse; but
`ParseValueFromMatch` (src/regex_processors.go line 69) returns
`m.NamedString(...)` — the raw, unparsed capture text — with a nil error (the
statement does not even type-check in Go: a `string` is returned where
`float64` is declared; the function's own doc comment promises a float64 or
an error).  At value spec `+$amount` with capture text "abc" the code yields
the raw string and no failure, for every `ParseFloat` model `pf`. -/
theorem C4_named_capture_unparsed_bug (pf : GoParseFloat) :
    ParseValueFromMatch pf
        { FieldType := ValueType.captureGroupNamed, CaptureGroupName := "amount" }
        ⟨[some "x abc"], [("amount", some "abc")]⟩
      = (GoFloat.str "abc", none) := rfl

end RegexProcessors

namespace Cfg2

/-- C10: loading a textual value specification fails (returned error or index
panic, either way a load-time configuration failure: `config.LoadFile`
surfaces the error to `log.Fatalln` in `main`, and an index panic crashes the
loader) exactly when the specification does not begin with `+`, `-` or `=`,
or its remainder is a literal (not a `$`-capture reference) that
`strconv.ParseFloat` rejects; a well-formed prefix followed by a parseable
literal or a `$`-capture reference loads successfully.  `pf` is the
`ParseFloat` model; the only fact used about it is that the empty string does
not parse (true of `strconv.ParseFloat`). -/
theorem C10_value_grammar_failures (pf : RegexProcessors.GoParseFloat)
    (pint : GoParseInt) (s : String) (hpf : (pf "").2 = false) :
    (UnmarshalYAML pf pint s).isOk = false ↔
      (startsWithOp s = false ∨
        (isCaptureRef s = false ∧ (pf (String.mk s.data.tail)).2 = false)) := by
  unfold UnmarshalYAML startsWithOp isCaptureRef
  match hs : s.data with
  | [] =>
      simpa [UnmarshalResult.isOk] using Or.inr ⟨rfl, by simpa using hpf⟩
  | c :: rest =>
      by_cases hop : (c = '+' ∨ c = '-' ∨ c = '=')
      · rcases hop with h | h | h <;> subst h <;>
        · match rest with
          | [] =>
              simp [UnmarshalResult.isOk, hpf]
          | d :: rest2 =>
              by_cases hd : d = '$'
              · subst hd
                cases hpint : pint (String.mk rest2) <;>
                  simp [UnmarshalResult.isOk, hpint]
              · cases hr : (pf (String.mk (d :: rest2))).2 <;>
                  simp [UnmarshalResult.isOk, hd, hr, List.tail]
      · have h1 : ¬ c = '+' := fun h => hop (Or.inl h)
        have h2 : ¬ c = '-' := fun h => hop (Or.inr (Or.inl h))
        have h3 : ¬ c = '=' := fun h => hop (Or.inr (Or.inr h))
        simp [UnmarshalResult.isOk, h1, h2, h3]

/-- Witness for C10 at concrete inputs, with `ParseFloat`/`ParseInt` models
that reject everything: the empty string does not parse, and the
specification "5" (no operation prefix) fails to load. -/
theorem C10_value_grammar_failures_witness :
    ((fun _ => ((0 : ℚ), false)) "").2 = false
    ∧ ((UnmarshalYAML (fun _ => ((0 : ℚ), false)) (fun _ => none) "5").isOk = false ↔
        (startsWithOp "5" = false ∨
          (isCaptureRef "5" = false ∧
            ((fun _ => ((0 : ℚ), false)) (String.mk ("5".data.tail))).2 = false))) :=
  ⟨rfl, C10_value_grammar_failures (fun _ => ((0 : ℚ), false)) (fun _ => none) "5" rfl⟩

end Cfg2

namespace Desc

theorem mk_data (s : String) : String.mk s.data = s := rfl

theorem expectLit_append (lit r : List Char) : expectLit lit (lit ++ r) = some r := by
  induction lit with
  | nil => rfl
  | cons c cs ih => simp [expectLit, ih]

theorem unq_cons_quote (t : List Char) : unq ('"' :: t) = some ([], t) := rfl

theorem unq_cons_esc (d : Char) (t : List Char) :
    unq ('\\' :: d :: t) =
      match unq t with
      | none => none
      | some (s, r) => some (d :: s, r) := rfl

theorem unq_cons_other (c : Char) (t : List Char) (h1 : c ≠ '"') (h2 : c ≠ '\\') :
    unq (c :: t) =
      match unq t with
      | none => none
      | some (s, r) => some (c :: s, r) := by
  simp [unq, h1, h2]

theorem unq_escChars (v rest : List Char) :
    unq (escChars v ++ '"' :: rest) = some (v, rest) := by
  induction v with
  | nil => simp [escChars, unq_cons_quote]
  | cons c cs ih =>
      by_cases h1 : c = '"'
      · subst h1
        simp [escChars, escChar, unq_cons_esc, ih]
      · by_cases h2 : c = '\\'
        · subst h2
          simp [escChars, escChar, unq_cons_esc, ih]
        · simp [escChars, escChar, h1, h2, unq_cons_other c _ h1 h2, ih]

theorem parseQuoted_goQuote (s : String) (rest : List Char) :
    parseQuoted (goQuote s ++ rest) = some (s, rest) := by
  have h : goQuote s ++ rest = '"' :: (escChars s.data ++ '"' :: rest) := by
    simp [goQuote]
  rw [h]
  simp [parseQuoted, unq_escChars, mk_data]

end Desc

namespace Desc

theorem labelNameStart_isChar (c : Char) (h : isLabelNameStart c = true) :
    isLabelNameChar c = true := by
  simp only [isLabelNameStart, Bool.or_eq_true] at h
  rcases h with h | h <;> simp [isLabelNameChar, h]

theorem labelNameChar_ne_eq (c : Char) (h : isLabelNameChar c = true) : c ≠ '=' := by
  intro he
  subst he
  revert h
  decide

theorem labelNameChar_ne_rbrace (c : Char) (h : isLabelNameChar c = true) : c ≠ '\x7d' := by
  intro he
  subst he
  revert h
  decide

theorem checkLabelName_chars (n : String) (h : checkLabelName n = true) :
    ∃ c cs, n.data = c :: cs ∧ isLabelNameChar c = true ∧
      ∀ d ∈ cs, isLabelNameChar d = true := by
  unfold checkLabelName at h
  rw [Bool.and_eq_true] at h
  obtain ⟨h1, _⟩ := h
  match hn : n.data with
  | [] => rw [hn] at h1; cases h1
  | c :: cs =>
      rw [hn, Bool.and_eq_true] at h1
      exact ⟨c, cs, rfl, labelNameStart_isChar c h1.1,
        fun d hd => List.all_eq_true.mp h1.2 d hd⟩

theorem takeWhile_name (c : Char) (cs r : List Char) (h : ∀ d ∈ c :: cs, d ≠ '=') :
    (c :: (cs ++ '=' :: r)).takeWhile (fun ch => ch != '=') = c :: cs
    ∧ (c :: (cs ++ '=' :: r)).dropWhile (fun ch => ch != '=') = '=' :: r := by
  induction cs generalizing c with
  | nil =>
      have hc : (c != '=') = true := by
        simpa using h c (List.mem_cons_self _ _)
      simp [List.takeWhile_cons, List.dropWhile_cons, hc]
  | cons d ds ih =>
      have hc : (c != '=') = true := by
        simpa using h c (List.mem_cons_self _ _)
      have ih2 := ih d (fun e he => h e (List.mem_cons_of_mem _ he))
      constructor
      · rw [List.takeWhile_cons, if_pos hc, List.cons_append]
        rw [ih2.1]
      · rw [List.dropWhile_cons, if_pos hc, List.cons_append]
        rw [ih2.2]

end Desc

namespace Desc

theorem name_chars_ne_eq (c : Char) (cs : List Char) (hc1 : isLabelNameChar c = true)
    (hcs : ∀ d ∈ cs, isLabelNameChar d = true) : ∀ d ∈ c :: cs, d ≠ '=' := by
  intro d hd
  rcases List.mem_cons.mp hd with h | h
  · subst h
    exact labelNameChar_ne_eq _ hc1
  · exact labelNameChar_ne_eq _ (hcs d h)

theorem parsePairs_encPairs (ps : List (String × String)) :
    ∀ (rest : List Char), (∀ p ∈ ps, checkLabelName p.1 = true) →
    ∀ fuel, ps.length < fuel →
      parsePairs fuel (encPairs ps ++ '\x7d' :: rest) = some (ps, '\x7d' :: rest) := by
  induction ps with
  | nil =>
      intro rest _ fuel hf
      match fuel, hf with
      | Nat.succ f, _ => simp [encPairs, parsePairs]
  | cons p ps ih =>
      intro rest hv fuel hf
      obtain ⟨c, cs, hdata, hc1, hcs⟩ :=
        checkLabelName_chars p.1 (hv p (List.mem_cons_self _ _))
      have hname := name_chars_ne_eq c cs hc1 hcs
      have hcb : c ≠ '\x7d' := labelNameChar_ne_rbrace _ hc1
      match fuel, hf with
      | Nat.succ f, hf =>
        cases ps with
        | nil =>
            have hshape : encPairs [p] ++ '\x7d' :: rest
                = c :: (cs ++ '=' :: (goQuote p.2 ++ '\x7d' :: rest)) := by
              simp [encPairs, encPair, hdata, goQuote]
            rw [hshape]
            have htw := takeWhile_name c cs (goQuote p.2 ++ '\x7d' :: rest) hname
            simp only [parsePairs, if_neg hcb, htw.1, htw.2,
              parseQuoted_goQuote]
            have : String.mk (c :: cs) = p.1 := by rw [← hdata]
            simp [this]
        | cons q qs =>
            have hshape : encPairs (p :: q :: qs) ++ '\x7d' :: rest
                = c :: (cs ++ '=' ::
                    (goQuote p.2 ++ ',' :: (encPairs (q :: qs) ++ '\x7d' :: rest))) := by
              simp [encPairs, encPair, hdata, goQuote]
            rw [hshape]
            have htw := takeWhile_name c cs
              (goQuote p.2 ++ ',' :: (encPairs (q :: qs) ++ '\x7d' :: rest)) hname
            have hrec := ih rest (fun r hr => hv r (List.mem_cons_of_mem _ hr)) f
              (Nat.lt_of_succ_lt_succ hf)
            simp only [parsePairs, if_neg hcb, htw.1, htw.2,
              parseQuoted_goQuote, hrec]
            have : String.mk (c :: cs) = p.1 := by rw [← hdata]
            simp [this]

end Desc

namespace Desc

theorem parseDesc_descChars (n h : String) (ps : List (String × String)) (e : Bool)
    (hv : ∀ p ∈ ps, checkLabelName p.1 = true) (fuel : Nat) (hf : ps.length < fuel) :
    parseDesc fuel (descChars ⟨n, h, ps, e⟩) = some (n, h, ps) := by
  have hsuffix : ("\x7d, variableLabels: []\x7d".data : List Char)
      = '\x7d' :: ", variableLabels: []\x7d".data := by decide
  have hshape : descChars ⟨n, h, ps, e⟩
      = "Desc\x7bfqName: ".data ++ (goQuote n ++ (", help: ".data ++ (goQuote h
          ++ (", constLabels: \x7b".data
              ++ (encPairs ps ++ ('\x7d' :: ", variableLabels: []\x7d".data)))))) := by
    simp [descChars, hsuffix, List.append_assoc]
  have hlast : expectLit "\x7d, variableLabels: []\x7d".data
      ('\x7d' :: ", variableLabels: []\x7d".data) = some [] := by decide
  rw [hshape]
  unfold parseDesc
  simp only [expectLit_append, parseQuoted_goQuote]
  rw [parsePairs_encPairs ps _ hv fuel hf]
  simp only [hlast]

theorem sortPairs_perm (l : List (String × String)) : (sortPairs l).Perm l :=
  List.perm_insertionSort _ _

theorem sortPairs_sorted (l : List (String × String)) :
    List.Pairwise pairLe (sortPairs l) :=
  List.sorted_insertionSort _ _

/-- Strict by-name order on label pairs. -/
def pairLt (p q : String × String) : Prop := p.1 < q.1

instance : IsAntisymm (String × String) pairLt :=
  ⟨fun a b h1 h2 => absurd (lt_trans h1 h2) (lt_irrefl _)⟩

theorem sortPairs_pairwise_lt (l : List (String × String))
    (hk : (l.map Prod.fst).Nodup) : List.Pairwise pairLt (sortPairs l) := by
  have hknodup : ((sortPairs l).map Prod.fst).Nodup := by
    have hmap : ((sortPairs l).map Prod.fst).Perm (l.map Prod.fst) :=
      (sortPairs_perm l).map _
    exact hmap.nodup_iff.mpr hk
  have hne : List.Pairwise (fun p q : String × String => p.1 ≠ q.1) (sortPairs l) :=
    (List.pairwise_map).mp hknodup
  have hcomb := (sortPairs_sorted l).and hne
  exact hcomb.imp (fun hpq => lt_of_le_of_ne hpq.1 hpq.2)

theorem sortPairs_eq_of_perm (l1 l2 : List (String × String))
    (hk : (l1.map Prod.fst).Nodup) (hp : l1.Perm l2) :
    sortPairs l1 = sortPairs l2 := by
  have hk2 : (l2.map Prod.fst).Nodup := (hp.map Prod.fst).nodup_iff.mp hk
  have hperm : (sortPairs l1).Perm (sortPairs l2) :=
    (sortPairs_perm l1).trans (hp.trans (sortPairs_perm l2).symm)
  exact List.eq_of_perm_of_sorted hperm (sortPairs_pairwise_lt l1 hk)
    (sortPairs_pairwise_lt l2 hk2)

theorem NewDesc_valid (n h : String) (l : List (String × String))
    (hn : IsValidMetricName n = true) (hl : ∀ p ∈ l, checkLabelName p.1 = true) :
    NewDesc n h l = ⟨n, h, sortPairs l, false⟩ := by
  have hall : l.all (fun p => checkLabelName p.1) = true :=
    List.all_eq_true.mpr hl
  simp [NewDesc, hn, hall]

end Desc

namespace Desc

/-- C7 counterexample: the claim quantifies over *every* metric name and
label mapping, but `NewDesc` validates names: for any label name failing
`checkLabelName` it returns early with `constLabelPairs` empty, so the
printed descriptor — and hence the SHA-256 identity, for any digest —
collapses to `name + help` alone.  Two distinct label mappings (here
`{bad-name: x}` and `{another-bad: y}`) therefore produce the *same*
identity, refuting "two inputs with distinct (name, label-set) pairs
produce distinct identities". -/
theorem C7_invalid_label_collision_counterexample :
    metricHash id "m" "h" [("bad-name", "x")]
      = metricHash id "m" "h" [("another-bad", "y")]
    ∧ ([("bad-name", "x")] : List (String × String)) ≠ [("another-bad", "y")] := by
  constructor
  · decide
  · decide

/-- C7 amended: restricted to validated descriptors — a valid Prometheus
metric name and valid, non-reserved label names — and granting the digest
collision-freedom (injectivity, the property the spec assumes of SHA-256),
the identity is a sound and complete key for (name, help, label mapping):
two inputs hash identically iff they have the same metric name, the same
help text, and label mappings equal up to declaration order.  In
particular label declaration order never affects the identity (labels are
sorted by name before printing), and distinct (name, label-set) pairs give
distinct identities. -/
theorem C7_identity_amended (dig : String → String) (n1 h1 n2 h2 : String)
    (l1 l2 : List (String × String)) (hdig : Function.Injective dig)
    (hn1 : IsValidMetricName n1 = true) (hn2 : IsValidMetricName n2 = true)
    (hl1 : ∀ p ∈ l1, checkLabelName p.1 = true)
    (hl2 : ∀ p ∈ l2, checkLabelName p.1 = true)
    (hk1 : (l1.map Prod.fst).Nodup) :
    metricHash dig n1 h1 l1 = metricHash dig n2 h2 l2 ↔
      (n1 = n2 ∧ h1 = h2 ∧ l1.Perm l2) := by
  constructor
  · intro heq
    have hstr := hdig heq
    have hchars : descChars (NewDesc n1 h1 l1) = descChars (NewDesc n2 h2 l2) :=
      congrArg String.data hstr
    rw [NewDesc_valid _ _ _ hn1 hl1, NewDesc_valid _ _ _ hn2 hl2] at hchars
    have hv1 : ∀ p ∈ sortPairs l1, checkLabelName p.1 = true :=
      fun p hp => hl1 p ((sortPairs_perm l1).mem_iff.mp hp)
    have hv2 : ∀ p ∈ sortPairs l2, checkLabelName p.1 = true :=
      fun p hp => hl2 p ((sortPairs_perm l2).mem_iff.mp hp)
    have hfuel : (sortPairs l1).length < (sortPairs l1).length + (sortPairs l2).length + 1 := by
      omega
    have hfuel2 : (sortPairs l2).length < (sortPairs l1).length + (sortPairs l2).length + 1 := by
      omega
    have hr1 := parseDesc_descChars n1 h1 (sortPairs l1) false hv1
      ((sortPairs l1).length + (sortPairs l2).length + 1) hfuel
    have hr2 := parseDesc_descChars n2 h2 (sortPairs l2) false hv2
      ((sortPairs l1).length + (sortPairs l2).length + 1) hfuel2
    rw [hchars, hr2] at hr1
    have htrip := Option.some.inj hr1
    obtain ⟨e1, e2, e3⟩ : n2 = n1 ∧ h2 = h1 ∧ sortPairs l2 = sortPairs l1 := by
      simpa [Prod.ext_iff] using htrip
    refine ⟨e1.symm, e2.symm, ?_⟩
    exact (sortPairs_perm l1).symm.trans (e3.symm ▸ sortPairs_perm l2)
  · rintro ⟨rfl, rfl, hperm⟩
    unfold metricHash
    rw [NewDesc_valid _ _ _ hn1 hl1, NewDesc_valid _ _ _ hn2 hl2,
      sortPairs_eq_of_perm l1 l2 hk1 hperm]

/-- Witness for C7 amended at a concrete input: the digest instantiated to
the (injective) identity function, the same rule name and help on both
sides, and the label mapping `{uuid: abc, result: ok}` declared in the two
opposite orders — the identities coincide. -/
theorem C7_identity_amended_witness :
    IsValidMetricName "exim_mail_count" = true
    ∧ checkLabelName "uuid" = true
    ∧ metricHash id "exim_mail_count" "mail results" [("uuid", "abc"), ("result", "ok")]
        = metricHash id "exim_mail_count" "mail results" [("result", "ok"), ("uuid", "abc")] :=
  ⟨by decide, by decide,
    (C7_identity_amended id "exim_mail_count" "mail results" "exim_mail_count"
        "mail results" [("uuid", "abc"), ("result", "ok")]
        [("result", "ok"), ("uuid", "abc")] Function.injective_id
        (by decide) (by decide)
        (by intro p hp; fin_cases hp <;> decide)
        (by intro p hp; fin_cases hp <;> decide)
        (by decide)).mpr ⟨rfl, rfl, by decide⟩⟩

end Desc

namespace MainGo

open Metrictypes ConfigGo Regex RegexProcessors

/-- C1 (code bug): the claim requires that when value resolution fails the
line is dropped — the Metric Store neither read nor mutated, no series
created — with only the rejection counter incremented.  The code
(src/main.go lines 155-159) logs "Dropping line due value parsing error" and
increments the rejection counter, but the `continue` is missing: execution
falls through to the store lookup and creates/updates the series with the
value `strconv.ParseFloat` returned alongside its error (0 on a syntax
error).  For the rule `m{} = $1` (gauge) applied to a match whose group 1
text is "abc": one rejection is recorded *and* a brand-new series with value
0 is inserted into the store. -/
theorem C1_value_failure_still_mutates_bug (pf : GoParseFloat)
    (hpf : pf "abc" = (0, false)) :
    (processLine id pf
        ⟨"m", MetricType.gauge, "h", [],
          { FieldType := ValueType.captureGroup, CaptureGroup := 1,
            ValueOp := ValueOpType.equals }, 0⟩
        (some ⟨[some "x abc", some "abc"], []⟩) [] 5).rejects
      = ["strconv.ParseFloat: invalid syntax"]
    ∧ (processLine id pf
        ⟨"m", MetricType.gauge, "h", [],
          { FieldType := ValueType.captureGroup, CaptureGroup := 1,
            ValueOp := ValueOpType.equals }, 0⟩
        (some ⟨[some "x abc", some "abc"], []⟩) [] 5).store
      = [(Desc.metricHash id "m" "h" [],
          ⟨MetricType.gauge, 0, 0, 5⟩)] := by
  constructor <;>
    simp [processLine, ParseLabelPairsFromMatch, ParseValueFromMatch,
      MatchData.groupString, hpf, newMetricValue, storeGet, storeSet,
      GoFloat.toRat, MetricValue.set]

/-- Witness for C1 at a concrete `ParseFloat` model that rejects every
string, returning 0 alongside the error as `strconv.ParseFloat` does. -/
theorem C1_value_failure_still_mutates_bug_witness :
    ((fun _ => ((0 : ℚ), false)) "abc") = ((0 : ℚ), false)
    ∧ (processLine id (fun _ => ((0 : ℚ), false))
        ⟨"m", MetricType.gauge, "h", [],
          { FieldType := ValueType.captureGroup, CaptureGroup := 1,
            ValueOp := ValueOpType.equals }, 0⟩
        (some ⟨[some "x abc", some "abc"], []⟩) [] 5).rejects
      = ["strconv.ParseFloat: invalid syntax"] :=
  ⟨rfl, (C1_value_failure_still_mutates_bug (fun _ => ((0 : ℚ), false)) rfl).1⟩

/-- C8 (code bug): the claim requires exactly-once creation under N
concurrent first-touches of a fresh identity, with all N updates reflected
in the final value.  But `lineProcessor` (src/main.go lines 161-183) never
locks `c.mmtx` — the field documented at line 41 as the "Metric
initialization lock for map writes" — so the lookup and the insert are not
atomic.  Under the interleaving in which both workers perform their
`GetStringKey` miss before either writes, both execute the creation branch
(two creations, not one) and the second insert overwrites the first: with
both workers adding 1 to a fresh counter identity, the final value is 1,
not 2. -/
theorem C8_duplicate_creation_race_bug :
    (raceExec ⟨ValueOpType.add, 1, MetricType.counter, 3⟩
        ⟨ValueOpType.add, 1, MetricType.counter, 4⟩
        [true, false, true, false] raceInit).created = 2
    ∧ (raceExec ⟨ValueOpType.add, 1, MetricType.counter, 3⟩
        ⟨ValueOpType.add, 1, MetricType.counter, 4⟩
        [true, false, true, false] raceInit).slot
      = some ⟨MetricType.counter, 1, 0, 4⟩ := by
  constructor <;> decide

end MainGo
